import Mathlib

/-!
Verification development for the time-conversion module declared in
`src/pydarn/io/cdmap/rtime.h` (Radar Software Toolkit calendar arithmetic).

The repository provides only the header file with three prototypes:

  void   TimeEpochToYMDHMS(double tme, int *yr, int *mo, int *dy,
                           int *hr, int *mn, double *sc);
  double TimeYMDHMSToEpoch(int yr, int mo, int dy, int hr, int mn, double sec);
  void   TimeYrsecToYMDHMS(int time, int yr, int *mo, int *dy,
                           int *hr, int *mn, int *sc);

The implementation file (rtime.c) is not part of the sources, so the bodies
below are modelled from the specification: Unix epoch 1970-01-01T00:00:00,
proleptic Gregorian calendar with the 400-year leap rule, no leap seconds.
Real-valued instants (C `double`) are embedded as rationals, so every stated
round trip is exact.
-/

/-- Modelled from the spec (the leap-year rule used by the missing rtime.c):
a year is a leap year when it is divisible by 4, except centuries unless
divisible by 400. -/
def isLeapYear (yr : Int) : Bool :=
  (yr % 4 == 0 && yr % 100 != 0) || (yr % 400 == 0)

/-- Modelled from the spec: number of days in a calendar year. -/
def daysInYear (yr : Int) : Nat :=
  if isLeapYear yr then 366 else 365

/-- Modelled from the spec: the month-length table 31,28/29,31,30,31,30,31,
31,30,31,30,31, with February resolved by the leap-year rule. Months are
1-based; arguments outside 1..12 are outside the documented domain. -/
def daysInMonth (yr : Int) (mo : Nat) : Nat :=
  if mo = 2 then (if isLeapYear yr then 29 else 28)
  else if mo = 4 ∨ mo = 6 ∨ mo = 9 ∨ mo = 11 then 30
  else 31

/-- The common-year month-length table named by the spec. -/
def monthLengthsCommon : List Nat :=
  [31, 28, 31, 30, 31, 30, 31, 31, 30, 31, 30, 31]

/-- Modelled from the spec: days in the completed months of year `yr`
strictly before month `mo` (so `daysBeforeMonth yr 1 = 0`). -/
def daysBeforeMonth (yr : Int) : Nat → Nat
  | 0 => 0
  | 1 => 0
  | m + 1 => daysBeforeMonth yr m + daysInMonth yr m

/-- Modelled from the spec: total days in the consecutive years
`start, start+1, ..., start+n-1`. -/
def daysInYearsFrom (start : Int) : Nat → Nat
  | 0 => 0
  | n + 1 => daysInYearsFrom start n + daysInYear (start + (n : Int))

/-- Modelled from the spec: whole days from the reference epoch
(1970-01-01) to the start of year `yr`, accumulating the leap-year rule
over every intervening year; negative for years before 1970. -/
def daysFrom1970 (yr : Int) : Int :=
  if 1970 ≤ yr then (daysInYearsFrom 1970 (yr - 1970).toNat : Int)
  else -(daysInYearsFrom yr (1970 - yr).toNat : Int)

/-- Modelled from the spec: resolve a 0-based day-of-year into a
(1-based month, 1-based day) pair by walking the month-length table.
`fuel` counts the months still available after the current one; the top-level
entry point supplies fuel 11 starting from month 1, so the walk visits at
most the twelve calendar months. -/
def resolveMonthAux (yr : Int) : Nat → Nat → Nat → Nat × Nat
  | 0, mo, d => (mo, d + 1)
  | fuel + 1, mo, d =>
      if d < daysInMonth yr mo then (mo, d + 1)
      else resolveMonthAux yr fuel (mo + 1) (d - daysInMonth yr mo)

/-- Modelled from the spec: month/day of the 0-based day-of-year `d`
within year `yr`. -/
def resolveMonth (yr : Int) (d : Nat) : Nat × Nat :=
  resolveMonthAux yr 11 1 d

/-- Modelled from the spec: starting from January 1 of year `yr`, advance
over whole years while at least a year's worth of days remains, returning
the final year and the remaining 0-based day-of-year. `fuel` bounds the
number of year steps; any fuel exceeding `d` suffices because every year
consumes at least 365 days. -/
def resolveDayFwdAux : Nat → Nat → Int → Int × Nat
  | 0, d, yr => (yr, d)
  | fuel + 1, d, yr =>
      if d < daysInYear yr then (yr, d)
      else resolveDayFwdAux fuel (d - daysInYear yr) (yr + 1)

/-- Modelled from the spec: starting from January 1 of year `yr`, step
backwards over whole years while the day offset is negative, returning the
final year and the 0-based day-of-year. `fuel` bounds the number of year
steps; any fuel exceeding `-d` suffices. -/
def resolveDayBwdAux : Nat → Int → Int → Int × Nat
  | 0, d, yr => (yr, d.toNat)
  | fuel + 1, d, yr =>
      if 0 ≤ d then (yr, d.toNat)
      else resolveDayBwdAux fuel (d + (daysInYear (yr - 1) : Int)) (yr - 1)

/-- Modelled from the spec: resolve a signed count of whole days since the
reference epoch into (year, 0-based day-of-year). -/
def resolveDay (d : Int) : Int × Nat :=
  if 0 ≤ d then resolveDayFwdAux (d.toNat + 1) d.toNat 1970
  else resolveDayBwdAux ((-d).toNat + 1) d 1970

/-- Modelled from the spec: the body of `TimeEpochToYMDHMS` missing from
rtime.c. Reduces the instant to whole days since the epoch plus a sub-day
remainder, resolves the day count through the Gregorian rule into
year/month/day, and splits the remainder into hour/minute/fractional
second. Output order matches the C output parameters
(yr, mo, dy, hr, mn, sc). -/
def TimeEpochToYMDHMS (tme : ℚ) : Int × Nat × Nat × Nat × Nat × ℚ :=
  let w : Int := ⌊tme⌋
  let d : Int := w / 86400
  let sod : Nat := (w % 86400).toNat
  let yd : Int × Nat := resolveDay d
  let md : Nat × Nat := resolveMonth yd.1 yd.2
  (yd.1, md.1, md.2, sod / 3600, sod % 3600 / 60,
    ((sod % 60 : Nat) : ℚ) + (tme - (w : ℚ)))

/-- Modelled from the spec: the body of `TimeYMDHMSToEpoch` missing from
rtime.c. Accumulates whole days from the reference epoch to the start of
year `yr`, adds the completed months and the day-of-month minus one, then
adds the time of day in seconds. -/
def TimeYMDHMSToEpoch (yr : Int) (mo dy hr mn : Nat) (sec : ℚ) : ℚ :=
  (((daysFrom1970 yr + (daysBeforeMonth yr mo : Int) + (dy : Int) - 1) * 86400
      + (hr : Int) * 3600 + (mn : Int) * 60 : Int) : ℚ) + sec

/-- Modelled from the spec: the body of `TimeYrsecToYMDHMS` missing from
rtime.c. Decomposes an integer count of seconds since the start of year
`yr` into (mo, dy, hr, mn, sc) with an integer second, the same day/month
decomposition as `TimeEpochToYMDHMS` anchored at the start of `yr`. -/
def TimeYrsecToYMDHMS (time : Int) (yr : Int) : Nat × Nat × Nat × Nat × Nat :=
  let doy : Nat := (time / 86400).toNat
  let sod : Nat := (time % 86400).toNat
  let md : Nat × Nat := resolveMonth yr doy
  (md.1, md.2, sod / 3600, sod % 3600 / 60, sod % 60)

/-- Caller-visible variables around a C call to `TimeEpochToYMDHMS`:
the input instant and the six caller-owned output locations. -/
structure EpochCallFrame where
  tme : ℚ
  yr : Int
  mo : Nat
  dy : Nat
  hr : Nat
  mn : Nat
  sc : ℚ

/-- Modelled from the spec: the C call
`TimeEpochToYMDHMS(tme, &yr, &mo, &dy, &hr, &mn, &sc)` as a transformation
of the caller frame; it writes exactly the six output locations and reads
only `tme`. -/
def runTimeEpochToYMDHMS (s : EpochCallFrame) : EpochCallFrame :=
  { s with
    yr := (TimeEpochToYMDHMS s.tme).1
    mo := (TimeEpochToYMDHMS s.tme).2.1
    dy := (TimeEpochToYMDHMS s.tme).2.2.1
    hr := (TimeEpochToYMDHMS s.tme).2.2.2.1
    mn := (TimeEpochToYMDHMS s.tme).2.2.2.2.1
    sc := (TimeEpochToYMDHMS s.tme).2.2.2.2.2 }

/-- Caller-visible variables around a C call to `TimeYMDHMSToEpoch`:
the six by-value inputs and the location receiving the returned instant. -/
structure YmdCallFrame where
  yr : Int
  mo : Nat
  dy : Nat
  hr : Nat
  mn : Nat
  sec : ℚ
  epoch : ℚ

/-- Modelled from the spec: the C call
`epoch = TimeYMDHMSToEpoch(yr, mo, dy, hr, mn, sec)` as a transformation of
the caller frame; only the result location changes. -/
def runTimeYMDHMSToEpoch (s : YmdCallFrame) : YmdCallFrame :=
  { s with epoch := TimeYMDHMSToEpoch s.yr s.mo s.dy s.hr s.mn s.sec }

/-- Caller-visible variables around a C call to `TimeYrsecToYMDHMS`: the
two by-value inputs (`time`, `yr`) and the five caller-owned integer output
locations. The seconds output is an integer (`int *sc`), unlike the
fractional (`double *sc`) output of `TimeEpochToYMDHMS`. -/
structure YrsecCallFrame where
  time : Int
  yr : Int
  mo : Nat
  dy : Nat
  hr : Nat
  mn : Nat
  sc : Nat

/-- Modelled from the spec: the C call
`TimeYrsecToYMDHMS(time, yr, &mo, &dy, &hr, &mn, &sc)` as a transformation
of the caller frame; `time` and `yr` are passed by value and only the five
output locations are written. -/
def runTimeYrsecToYMDHMS (s : YrsecCallFrame) : YrsecCallFrame :=
  { s with
    mo := (TimeYrsecToYMDHMS s.time s.yr).1
    dy := (TimeYrsecToYMDHMS s.time s.yr).2.1
    hr := (TimeYrsecToYMDHMS s.time s.yr).2.2.1
    mn := (TimeYrsecToYMDHMS s.time s.yr).2.2.2.1
    sc := (TimeYrsecToYMDHMS s.time s.yr).2.2.2.2 }

/-! ### Basic facts about the calendar tables -/

lemma daysInYear_ge (yr : Int) : 365 ≤ daysInYear yr := by
  unfold daysInYear
  split <;> omega

lemma daysBeforeMonth_one (yr : Int) : daysBeforeMonth yr 1 = 0 := rfl

lemma daysBeforeMonth_succ (yr : Int) (mo : Nat) (h : 1 ≤ mo) :
    daysBeforeMonth yr (mo + 1) = daysBeforeMonth yr mo + daysInMonth yr mo := by
  match mo, h with
  | m + 1, _ => rfl

lemma daysInMonth_ge (yr : Int) (mo : Nat) : 28 ≤ daysInMonth yr mo := by
  unfold daysInMonth
  split
  · split <;> omega
  · split <;> omega

lemma daysInYear_eq_months (yr : Int) :
    daysInYear yr = daysBeforeMonth yr 12 + daysInMonth yr 12 := by
  cases h : isLeapYear yr <;>
    simp [daysInYear, daysBeforeMonth, daysInMonth, h]

lemma daysBeforeMonth_gap (yr : Int) (m1 m2 : Nat) (h1 : 1 ≤ m1) (h : m1 < m2) :
    daysBeforeMonth yr m1 + daysInMonth yr m1 ≤ daysBeforeMonth yr m2 := by
  induction m2 with
  | zero => omega
  | succ m ih =>
    rcases Nat.lt_or_ge m1 m with h2 | h2
    · have h3 := ih h2
      have h4 := daysBeforeMonth_succ yr m (by omega)
      omega
    · have h3 : m1 = m := by omega
      subst h3
      rw [daysBeforeMonth_succ yr m1 h1]

lemma doy_lt_daysInYear (yr : Int) (mo dy : Nat) (h1 : 1 ≤ mo) (h2 : mo ≤ 12)
    (h4 : dy ≤ daysInMonth yr mo) :
    daysBeforeMonth yr mo + (dy - 1) < daysInYear yr := by
  have hy := daysInYear_eq_months yr
  have h12 := daysInMonth_ge yr 12
  rcases Nat.lt_or_ge mo 12 with h | h
  · have := daysBeforeMonth_gap yr mo 12 h1 h
    omega
  · have hmo : mo = 12 := by omega
    subst hmo
    omega

/-! ### Month resolution: existence and uniqueness -/

lemma resolveMonthAux_spec (yr : Int) :
    ∀ fuel mo d, mo + fuel = 12 → 1 ≤ mo →
      daysBeforeMonth yr mo + d < daysInYear yr →
      1 ≤ (resolveMonthAux yr fuel mo d).1 ∧
      (resolveMonthAux yr fuel mo d).1 ≤ 12 ∧
      1 ≤ (resolveMonthAux yr fuel mo d).2 ∧
      (resolveMonthAux yr fuel mo d).2 ≤ daysInMonth yr (resolveMonthAux yr fuel mo d).1 ∧
      daysBeforeMonth yr (resolveMonthAux yr fuel mo d).1
          + ((resolveMonthAux yr fuel mo d).2 - 1)
        = daysBeforeMonth yr mo + d := by
  intro fuel
  induction fuel with
  | zero =>
    intro mo d hmo hge hlt
    have hmo12 : mo = 12 := by omega
    subst hmo12
    have hy := daysInYear_eq_months yr
    simp only [resolveMonthAux]
    exact ⟨by omega, by omega, by omega, by omega, by omega⟩
  | succ f ih =>
    intro mo d hmo hge hlt
    simp only [resolveMonthAux]
    by_cases hd : d < daysInMonth yr mo
    · simp only [if_pos hd]
      exact ⟨hge, by omega, by omega, by omega, by omega⟩
    · simp only [if_neg hd]
      have hstep := daysBeforeMonth_succ yr mo hge
      have hrec := ih (mo + 1) (d - daysInMonth yr mo) (by omega) (by omega) (by omega)
      exact ⟨hrec.1, hrec.2.1, hrec.2.2.1, hrec.2.2.2.1, by omega⟩

lemma resolveMonth_spec (yr : Int) (doy : Nat) (h : doy < daysInYear yr) :
    1 ≤ (resolveMonth yr doy).1 ∧ (resolveMonth yr doy).1 ≤ 12 ∧
    1 ≤ (resolveMonth yr doy).2 ∧
    (resolveMonth yr doy).2 ≤ daysInMonth yr (resolveMonth yr doy).1 ∧
    daysBeforeMonth yr (resolveMonth yr doy).1 + ((resolveMonth yr doy).2 - 1) = doy := by
  unfold resolveMonth
  have hs := resolveMonthAux_spec yr 11 1 doy (by omega) (by omega)
    (by rw [daysBeforeMonth_one]; omega)
  rw [daysBeforeMonth_one] at hs
  obtain ⟨a1, a2, a3, a4, a5⟩ := hs
  exact ⟨a1, a2, a3, a4, by omega⟩

lemma month_unique (yr : Int) (m1 d1 m2 d2 : Nat)
    (hm1 : 1 ≤ m1) (hm2 : 1 ≤ m2)
    (hd1 : d1 < daysInMonth yr m1) (hd2 : d2 < daysInMonth yr m2)
    (he : daysBeforeMonth yr m1 + d1 = daysBeforeMonth yr m2 + d2) :
    m1 = m2 ∧ d1 = d2 := by
  rcases Nat.lt_trichotomy m1 m2 with h | h | h
  · have := daysBeforeMonth_gap yr m1 m2 hm1 h
    omega
  · subst h
    exact ⟨rfl, by omega⟩
  · have := daysBeforeMonth_gap yr m2 m1 hm2 h
    omega

lemma resolveMonth_eq (yr : Int) (mo dy : Nat) (h1 : 1 ≤ mo) (h2 : mo ≤ 12)
    (h3 : 1 ≤ dy) (h4 : dy ≤ daysInMonth yr mo) :
    resolveMonth yr (daysBeforeMonth yr mo + (dy - 1)) = (mo, dy) := by
  have hin : daysBeforeMonth yr mo + (dy - 1) < daysInYear yr :=
    doy_lt_daysInYear yr mo dy h1 h2 h4
  obtain ⟨a1, a2, a3, a4, a5⟩ :=
    resolveMonth_spec yr (daysBeforeMonth yr mo + (dy - 1)) hin
  have hu := month_unique yr (resolveMonth yr (daysBeforeMonth yr mo + (dy - 1))).1
      ((resolveMonth yr (daysBeforeMonth yr mo + (dy - 1))).2 - 1) mo (dy - 1)
      a1 h1 (by omega) (by omega) (by omega)
  have hd := hu.2
  rw [Prod.ext_iff]
  constructor
  · exact hu.1
  · show (resolveMonth yr (daysBeforeMonth yr mo + (dy - 1))).2 = dy
    omega

/-! ### Year accumulation: step, monotonicity, uniqueness -/

lemma daysInYearsFrom_succ_left (start : Int) (n : Nat) :
    daysInYearsFrom start (n + 1) = daysInYear start + daysInYearsFrom (start + 1) n := by
  induction n generalizing start with
  | zero => simp [daysInYearsFrom]
  | succ n ih =>
    have h1 : daysInYearsFrom start (n + 1 + 1)
        = daysInYearsFrom start (n + 1) + daysInYear (start + ((n + 1 : Nat) : Int)) := rfl
    have h2 : daysInYearsFrom (start + 1) (n + 1)
        = daysInYearsFrom (start + 1) n + daysInYear (start + 1 + (n : Int)) := rfl
    have h3 : start + ((n + 1 : Nat) : Int) = start + 1 + (n : Int) := by push_cast; ring
    rw [h1, h2, ih, h3]
    omega

lemma daysFrom1970_succ (yr : Int) :
    daysFrom1970 (yr + 1) = daysFrom1970 yr + (daysInYear yr : Int) := by
  rcases le_or_lt 1970 yr with h | h
  · have hn : (yr + 1 - 1970).toNat = (yr - 1970).toNat + 1 := by omega
    unfold daysFrom1970
    rw [if_pos (by omega), if_pos h, hn]
    have h3 : daysInYearsFrom 1970 ((yr - 1970).toNat + 1)
        = daysInYearsFrom 1970 (yr - 1970).toNat
          + daysInYear (1970 + ((yr - 1970).toNat : Int)) := rfl
    have h2 : (1970 : Int) + ((yr - 1970).toNat : Int) = yr := by omega
    rw [h3, h2]
    push_cast
    ring
  · by_cases h2 : yr = 1969
    · subst h2
      decide
    · unfold daysFrom1970
      rw [if_neg (by omega), if_neg (by omega)]
      have hm : (1970 - yr).toNat = (1970 - (yr + 1)).toNat + 1 := by omega
      rw [hm, daysInYearsFrom_succ_left]
      push_cast
      ring

lemma daysFrom1970_mono_add (a : Int) (n : Nat) :
    daysFrom1970 a ≤ daysFrom1970 (a + (n : Int)) := by
  induction n with
  | zero => simp
  | succ n ih =>
    have h1 := daysFrom1970_succ (a + (n : Int))
    have h2 : a + ((n + 1 : Nat) : Int) = (a + (n : Int)) + 1 := by push_cast; ring
    rw [h2, h1]
    omega

lemma daysFrom1970_gap (a b : Int) (h : a < b) :
    daysFrom1970 a + (daysInYear a : Int) ≤ daysFrom1970 b := by
  have h1 := daysFrom1970_succ a
  have h2 := daysFrom1970_mono_add (a + 1) (b - (a + 1)).toNat
  have h3 : (a + 1) + ((b - (a + 1)).toNat : Int) = b := by omega
  rw [h3] at h2
  omega

lemma year_unique (a b : Int) (i j : Nat) (hi : i < daysInYear a) (hj : j < daysInYear b)
    (he : daysFrom1970 a + (i : Int) = daysFrom1970 b + (j : Int)) : a = b := by
  rcases lt_trichotomy a b with h | h | h
  · have := daysFrom1970_gap a b h
    omega
  · exact h
  · have := daysFrom1970_gap b a h
    omega

/-! ### Day resolution: existence and uniqueness -/

lemma resolveDayFwdAux_spec :
    ∀ fuel d (yr : Int), d < fuel →
      daysFrom1970 (resolveDayFwdAux fuel d yr).1 + ((resolveDayFwdAux fuel d yr).2 : Int)
          = daysFrom1970 yr + (d : Int)
      ∧ (resolveDayFwdAux fuel d yr).2 < daysInYear (resolveDayFwdAux fuel d yr).1 := by
  intro fuel
  induction fuel with
  | zero => intro d yr h; omega
  | succ f ih =>
    intro d yr h
    simp only [resolveDayFwdAux]
    by_cases hd : d < daysInYear yr
    · rw [if_pos hd]
      exact ⟨rfl, hd⟩
    · simp only [if_neg hd]
      have h365 := daysInYear_ge yr
      have hrec := ih (d - daysInYear yr) (yr + 1) (by omega)
      have hstep := daysFrom1970_succ yr
      refine ⟨?_, hrec.2⟩
      have h1 := hrec.1
      omega

lemma resolveDayBwdAux_of_nonneg (fuel : Nat) (d yr : Int) (h : 0 ≤ d) :
    resolveDayBwdAux fuel d yr = (yr, d.toNat) := by
  cases fuel with
  | zero => rfl
  | succ f => simp only [resolveDayBwdAux, if_pos h]

lemma resolveDayBwdAux_spec :
    ∀ fuel (d yr : Int), d < 0 → d.natAbs < fuel →
      daysFrom1970 (resolveDayBwdAux fuel d yr).1 + ((resolveDayBwdAux fuel d yr).2 : Int)
          = daysFrom1970 yr + d
      ∧ (resolveDayBwdAux fuel d yr).2 < daysInYear (resolveDayBwdAux fuel d yr).1 := by
  intro fuel
  induction fuel with
  | zero => intro d yr h hf; omega
  | succ f ih =>
    intro d yr hneg hf
    have hni : ¬ (0 ≤ d) := by omega
    simp only [resolveDayBwdAux, if_neg hni]
    have h365 := daysInYear_ge (yr - 1)
    have hstep : daysFrom1970 yr = daysFrom1970 (yr - 1) + (daysInYear (yr - 1) : Int) := by
      have h0 := daysFrom1970_succ (yr - 1)
      have h1 : yr - 1 + 1 = yr := by ring
      rw [h1] at h0
      exact h0
    by_cases hpos : 0 ≤ d + (daysInYear (yr - 1) : Int)
    · rw [resolveDayBwdAux_of_nonneg f _ (yr - 1) hpos]
      have ht : ((d + (daysInYear (yr - 1) : Int)).toNat : Int)
          = d + (daysInYear (yr - 1) : Int) := Int.toNat_of_nonneg hpos
      constructor
      · show daysFrom1970 (yr - 1) + _ = _
        omega
      · show (d + (daysInYear (yr - 1) : Int)).toNat < daysInYear (yr - 1)
        omega
    · have hrec := ih (d + (daysInYear (yr - 1) : Int)) (yr - 1) (by omega) (by omega)
      refine ⟨?_, hrec.2⟩
      have h1 := hrec.1
      omega

lemma daysFrom1970_base : daysFrom1970 1970 = 0 := by decide

lemma resolveDay_spec (d : Int) :
    daysFrom1970 (resolveDay d).1 + ((resolveDay d).2 : Int) = d
    ∧ (resolveDay d).2 < daysInYear (resolveDay d).1 := by
  unfold resolveDay
  by_cases h : 0 ≤ d
  · rw [if_pos h]
    have hs := resolveDayFwdAux_spec (d.toNat + 1) d.toNat 1970 (by omega)
    rw [daysFrom1970_base] at hs
    refine ⟨?_, hs.2⟩
    have h1 := hs.1
    omega
  · rw [if_neg h]
    have hs := resolveDayBwdAux_spec ((-d).toNat + 1) d 1970 (by omega) (by omega)
    rw [daysFrom1970_base] at hs
    refine ⟨?_, hs.2⟩
    have h1 := hs.1
    omega

lemma resolveDay_eq (yr : Int) (doy : Nat) (h : doy < daysInYear yr) :
    resolveDay (daysFrom1970 yr + (doy : Int)) = (yr, doy) := by
  have hs := resolveDay_spec (daysFrom1970 yr + (doy : Int))
  have ha : (resolveDay (daysFrom1970 yr + (doy : Int))).1 = yr := by
    apply year_unique _ yr (resolveDay (daysFrom1970 yr + (doy : Int))).2 doy hs.2 h
    rw [hs.1]
  have hb := hs.1
  rw [ha] at hb
  rw [Prod.ext_iff]
  refine ⟨ha, ?_⟩
  show (resolveDay (daysFrom1970 yr + (doy : Int))).2 = doy
  omega

/-! ### The two round trips -/

lemma epoch_components (x : ℚ) :
    TimeEpochToYMDHMS x
      = ((resolveDay (⌊x⌋ / 86400)).1,
         (resolveMonth (resolveDay (⌊x⌋ / 86400)).1
            (resolveDay (⌊x⌋ / 86400)).2).1,
         (resolveMonth (resolveDay (⌊x⌋ / 86400)).1
            (resolveDay (⌊x⌋ / 86400)).2).2,
         (⌊x⌋ % 86400).toNat / 3600,
         (⌊x⌋ % 86400).toNat % 3600 / 60,
         (((⌊x⌋ % 86400).toNat % 60 : Nat) : ℚ) + (x - (⌊x⌋ : ℚ))) := rfl

lemma sec_floor_bounds (sec : ℚ) (h7 : 0 ≤ sec) (h8 : sec < 60) :
    0 ≤ ⌊sec⌋ ∧ ⌊sec⌋ ≤ 59 := by
  constructor
  · exact Int.floor_nonneg.mpr h7
  · have h : ⌊sec⌋ < 60 := Int.floor_lt.mpr (by exact_mod_cast h8)
    omega

lemma ymd_floor (yr : Int) (mo dy hr mn : Nat) (sec : ℚ) :
    ⌊TimeYMDHMSToEpoch yr mo dy hr mn sec⌋
      = (daysFrom1970 yr + (daysBeforeMonth yr mo : Int) + (dy : Int) - 1) * 86400
        + (hr : Int) * 3600 + (mn : Int) * 60 + ⌊sec⌋ := by
  unfold TimeYMDHMSToEpoch
  rw [Int.floor_int_add]

/-- Modelled round trip, calendar direction: a valid calendar instant is
reproduced exactly by `TimeEpochToYMDHMS` after `TimeYMDHMSToEpoch`. -/
lemma calendar_roundtrip (yr : Int) (mo dy hr mn : Nat) (sec : ℚ)
    (h1 : 1 ≤ mo) (h2 : mo ≤ 12) (h3 : 1 ≤ dy) (h4 : dy ≤ daysInMonth yr mo)
    (h5 : hr ≤ 23) (h6 : mn ≤ 59) (h7 : 0 ≤ sec) (h8 : sec < 60) :
    TimeEpochToYMDHMS (TimeYMDHMSToEpoch yr mo dy hr mn sec)
      = (yr, mo, dy, hr, mn, sec) := by
  have hsb := sec_floor_bounds sec h7 h8
  have hfl := ymd_floor yr mo dy hr mn sec
  have hdiv : ⌊TimeYMDHMSToEpoch yr mo dy hr mn sec⌋ / 86400
      = daysFrom1970 yr + (daysBeforeMonth yr mo : Int) + (dy : Int) - 1 := by
    rw [hfl]; omega
  have hmod : (⌊TimeYMDHMSToEpoch yr mo dy hr mn sec⌋ % 86400).toNat
      = hr * 3600 + mn * 60 + ⌊sec⌋.toNat := by
    rw [hfl]; omega
  have hdoy : daysFrom1970 yr + (daysBeforeMonth yr mo : Int) + (dy : Int) - 1
      = daysFrom1970 yr + ((daysBeforeMonth yr mo + (dy - 1) : Nat) : Int) := by
    push_cast
    omega
  have hdlt : daysBeforeMonth yr mo + (dy - 1) < daysInYear yr :=
    doy_lt_daysInYear yr mo dy h1 h2 h4
  have hday : resolveDay (daysFrom1970 yr + (daysBeforeMonth yr mo : Int) + (dy : Int) - 1)
      = (yr, daysBeforeMonth yr mo + (dy - 1)) := by
    rw [hdoy]
    exact resolveDay_eq yr _ hdlt
  have hmonth := resolveMonth_eq yr mo dy h1 h2 h3 h4
  rw [epoch_components]
  simp only [Prod.mk.injEq]
  refine ⟨?_, ?_, ?_, ?_, ?_, ?_⟩
  · rw [hdiv, hday]
  · rw [hdiv, hday]
    exact congrArg Prod.fst hmonth
  · rw [hdiv, hday]
    exact congrArg Prod.snd hmonth
  · rw [hmod]; omega
  · rw [hmod]; omega
  · have hx : (hr * 3600 + mn * 60 + ⌊sec⌋.toNat) % 60 = ⌊sec⌋.toNat := by omega
    rw [hmod, hx, hfl]
    have hsnat : ((⌊sec⌋.toNat : Nat) : ℚ) = ((⌊sec⌋ : Int) : ℚ) := by
      exact_mod_cast congrArg (Int.cast : Int → ℚ) (Int.toNat_of_nonneg hsb.1)
    rw [hsnat]
    unfold TimeYMDHMSToEpoch
    push_cast
    ring

/-- Modelled round trip, epoch direction: `TimeYMDHMSToEpoch` applied to the
components produced by `TimeEpochToYMDHMS` recovers the instant exactly. -/
lemma epoch_roundtrip (x : ℚ) :
    TimeYMDHMSToEpoch (TimeEpochToYMDHMS x).1 (TimeEpochToYMDHMS x).2.1
      (TimeEpochToYMDHMS x).2.2.1 (TimeEpochToYMDHMS x).2.2.2.1
      (TimeEpochToYMDHMS x).2.2.2.2.1 (TimeEpochToYMDHMS x).2.2.2.2.2 = x := by
  rcases hcomp : TimeEpochToYMDHMS x with ⟨ry, rm, rd, rh, rn, rs⟩
  rw [epoch_components] at hcomp
  simp only [Prod.mk.injEq] at hcomp
  obtain ⟨e1, e2, e3, e4, e5, e6⟩ := hcomp
  subst e1 e2 e3 e4 e5 e6
  have hday := resolveDay_spec (⌊x⌋ / 86400)
  have hmon := resolveMonth_spec (resolveDay (⌊x⌋ / 86400)).1
      (resolveDay (⌊x⌋ / 86400)).2 hday.2
  set rr := resolveDay (⌊x⌋ / 86400) with hrr
  set mm := resolveMonth rr.1 rr.2 with hmm
  set sod := (⌊x⌋ % 86400).toNat with hsod
  set hq := sod / 3600 with hhq
  set mq := sod % 3600 / 60 with hmq
  set sq := sod % 60 with hsq
  obtain ⟨b1, b2, b3, b4, b5⟩ := hmon
  have e0 := hday.1
  have hsodv : (sod : Int) = ⌊x⌋ % 86400 := by
    rw [hsod]
    exact Int.toNat_of_nonneg (by omega)
  unfold TimeYMDHMSToEpoch
  have key2 : (((daysFrom1970 rr.1 + (daysBeforeMonth rr.1 mm.1 : Int)
        + (mm.2 : Int) - 1) * 86400
        + (hq : Int) * 3600 + (mq : Int) * 60 : Int) : ℚ)
      = (⌊x⌋ : ℚ) - (sq : ℚ) := by
    have h2 : (daysFrom1970 rr.1 + (daysBeforeMonth rr.1 mm.1 : Int)
          + (mm.2 : Int) - 1) * 86400
          + (hq : Int) * 3600 + (mq : Int) * 60 = ⌊x⌋ - (sq : Int) := by
      omega
    rw [h2]
    push_cast
    ring
  rw [key2]
  ring

lemma yrsec_components (time yr : Int) :
    TimeYrsecToYMDHMS time yr
      = ((resolveMonth yr ((time / 86400).toNat)).1,
         (resolveMonth yr ((time / 86400).toNat)).2,
         (time % 86400).toNat / 3600,
         (time % 86400).toNat % 3600 / 60,
         (time % 86400).toNat % 60) := rfl

/-! ### The claims -/

/-- Claim C1: round trip. For every epoch instant (exactly representable as
a rational in this embedding), `TimeYMDHMSToEpoch` applied to the components
produced by `TimeEpochToYMDHMS` returns the instant; and every valid
calendar instant is reproduced exactly (integer fields exact, second exact,
hence within 1e-6) by `TimeEpochToYMDHMS` after `TimeYMDHMSToEpoch`. -/
theorem c1_round_trip :
    (∀ x : ℚ,
      TimeYMDHMSToEpoch (TimeEpochToYMDHMS x).1 (TimeEpochToYMDHMS x).2.1
        (TimeEpochToYMDHMS x).2.2.1 (TimeEpochToYMDHMS x).2.2.2.1
        (TimeEpochToYMDHMS x).2.2.2.2.1 (TimeEpochToYMDHMS x).2.2.2.2.2 = x)
    ∧ (∀ (yr : Int) (mo dy hr mn : Nat) (sec : ℚ),
        1 ≤ mo → mo ≤ 12 → 1 ≤ dy → dy ≤ daysInMonth yr mo →
        hr ≤ 23 → mn ≤ 59 → 0 ≤ sec → sec < 60 →
        TimeEpochToYMDHMS (TimeYMDHMSToEpoch yr mo dy hr mn sec)
          = (yr, mo, dy, hr, mn, sec)) :=
  ⟨epoch_roundtrip, fun yr mo dy hr mn sec h1 h2 h3 h4 h5 h6 h7 h8 =>
    calendar_roundtrip yr mo dy hr mn sec h1 h2 h3 h4 h5 h6 h7 h8⟩

theorem c1_round_trip_witness :
    TimeEpochToYMDHMS (TimeYMDHMSToEpoch 2026 10 11 12 30 (5/2))
      = (2026, 10, 11, 12, 30, 5/2) :=
  c1_round_trip.2 2026 10 11 12 30 (5/2) (by norm_num) (by norm_num)
    (by norm_num) (by decide) (by norm_num) (by norm_num) (by norm_num)
    (by norm_num)

/-- Claim C2: `TimeEpochToYMDHMS` at the instant 0 yields exactly
(1970, 1, 1, 0, 0, 0), pinning the reference epoch to
1970-01-01T00:00:00 under the Unix-epoch convention. -/
theorem c2_epoch_zero : TimeEpochToYMDHMS 0 = (1970, 1, 1, 0, 0, 0) := by
  have h0 : TimeYMDHMSToEpoch 1970 1 1 0 0 0 = 0 := by
    unfold TimeYMDHMSToEpoch
    rw [daysFrom1970_base, daysBeforeMonth_one]
    norm_num
  have h := calendar_roundtrip 1970 1 1 0 0 0 (by norm_num) (by norm_num)
    (by norm_num) (by decide) (by norm_num) (by norm_num) (by norm_num)
    (by norm_num)
  rw [h0] at h
  exact h

/-- Claim C3: Gregorian 400-rule. The instant corresponding to
2000-02-29T00:00:00 decodes to month 2, day 29; and no input ever decodes
to a day beyond 28 in February 1900 (1900 is not a leap year), so the
components (1900, 2, 29) are never produced. -/
theorem c3_leap_rule :
    ((TimeEpochToYMDHMS (TimeYMDHMSToEpoch 2000 2 29 0 0 0)).2.1 = 2
      ∧ (TimeEpochToYMDHMS (TimeYMDHMSToEpoch 2000 2 29 0 0 0)).2.2.1 = 29)
    ∧ (∀ x : ℚ, (TimeEpochToYMDHMS x).1 = 1900 → (TimeEpochToYMDHMS x).2.1 = 2 →
        (TimeEpochToYMDHMS x).2.2.1 ≤ 28) := by
  have h := calendar_roundtrip 2000 2 29 0 0 0 (by norm_num) (by norm_num)
    (by norm_num) (by decide) (by norm_num) (by norm_num) (by norm_num)
    (by norm_num)
  refine ⟨⟨by rw [h], by rw [h]⟩, ?_⟩
  intro x hy hm
  have hday := resolveDay_spec (⌊x⌋ / 86400)
  have hmon := resolveMonth_spec (resolveDay (⌊x⌋ / 86400)).1
      (resolveDay (⌊x⌋ / 86400)).2 hday.2
  simp only [epoch_components] at hy hm ⊢
  have hb := hmon.2.2.2.1
  have h28 : daysInMonth 1900 2 = 28 := by decide
  rw [hm] at hb
  rw [hy] at hb ⊢
  rw [h28] at hb
  exact hb

theorem c3_leap_rule_witness :
    (TimeEpochToYMDHMS (TimeYMDHMSToEpoch 1900 2 1 0 0 0)).2.2.1 ≤ 28 := by
  have h := calendar_roundtrip 1900 2 1 0 0 0 (by norm_num) (by norm_num)
    (by norm_num) (by decide) (by norm_num) (by norm_num) (by norm_num)
    (by norm_num)
  exact c3_leap_rule.2 (TimeYMDHMSToEpoch 1900 2 1 0 0 0) (by rw [h]) (by rw [h])

/-- Claim C4: for every input instant the decoded second lies in [0, 60):
it is never negative, never 60, and a fractional second is never rounded up
to 60; an instant exactly on a midnight (an integer multiple of 86400
seconds) decodes to second = 0. -/
theorem c4_second_range :
    (∀ x : ℚ, 0 ≤ (TimeEpochToYMDHMS x).2.2.2.2.2
        ∧ (TimeEpochToYMDHMS x).2.2.2.2.2 < 60)
    ∧ (∀ k : Int, (TimeEpochToYMDHMS ((k : ℚ) * 86400)).2.2.2.2.2 = 0) := by
  constructor
  · intro x
    simp only [epoch_components]
    have hfle := Int.floor_le x
    have hlt1 := Int.lt_floor_add_one x
    constructor
    · have h2 : (0 : ℚ) ≤ (((⌊x⌋ % 86400).toNat % 60 : Nat) : ℚ) :=
        Nat.cast_nonneg _
      linarith
    · have hn : (⌊x⌋ % 86400).toNat % 60 ≤ 59 := by omega
      have hcast : (((⌊x⌋ % 86400).toNat % 60 : Nat) : ℚ) ≤ 59 := by
        exact_mod_cast hn
      push_cast at hlt1
      linarith
  · intro k
    have hfl : ⌊((k : ℚ) * 86400)⌋ = k * 86400 := by
      rw [show ((k : ℚ) * 86400) = ((k * 86400 : Int) : ℚ) by push_cast; ring,
        Int.floor_intCast]
    simp only [epoch_components]
    rw [hfl]
    have hz : ((k * 86400) % 86400).toNat % 60 = 0 := by omega
    rw [hz]
    push_cast
    ring

/-- Claim C5: totality. All three operations are total functions: on every
input (in particular on the whole documented domain) each returns a plain
result tuple and there is no error indication of any kind in the
codomain. -/
theorem c5_total :
    (∀ t : ℚ, ∃ (yr : Int) (mo dy hr mn : Nat) (sc : ℚ),
        TimeEpochToYMDHMS t = (yr, mo, dy, hr, mn, sc))
    ∧ (∀ (yr : Int) (mo dy hr mn : Nat) (sec : ℚ), ∃ e : ℚ,
        TimeYMDHMSToEpoch yr mo dy hr mn sec = e)
    ∧ (∀ time yr : Int, ∃ (mo dy hr mn sc : Nat),
        TimeYrsecToYMDHMS time yr = (mo, dy, hr, mn, sc)) :=
  ⟨fun t => ⟨(TimeEpochToYMDHMS t).1, (TimeEpochToYMDHMS t).2.1,
      (TimeEpochToYMDHMS t).2.2.1, (TimeEpochToYMDHMS t).2.2.2.1,
      (TimeEpochToYMDHMS t).2.2.2.2.1, (TimeEpochToYMDHMS t).2.2.2.2.2, rfl⟩,
    fun yr mo dy hr mn sec => ⟨TimeYMDHMSToEpoch yr mo dy hr mn sec, rfl⟩,
    fun time yr => ⟨(TimeYrsecToYMDHMS time yr).1, (TimeYrsecToYMDHMS time yr).2.1,
      (TimeYrsecToYMDHMS time yr).2.2.1, (TimeYrsecToYMDHMS time yr).2.2.2.1,
      (TimeYrsecToYMDHMS time yr).2.2.2.2, rfl⟩⟩

/-- Claim C6: year rollover. The instant for 1999-12-31T23:59:59.5 plus
half a second equals the instant for 2000-01-01T00:00:00. -/
theorem c6_year_rollover :
    TimeYMDHMSToEpoch 1999 12 31 23 59 (119/2) + 1/2
      = TimeYMDHMSToEpoch 2000 1 1 0 0 0 := by
  have d1 : daysFrom1970 1999 = 10592 := by decide
  have d2 : daysFrom1970 2000 = 10957 := by decide
  have b1 : daysBeforeMonth 1999 12 = 334 := by decide
  have b2 : daysBeforeMonth 2000 1 = 0 := rfl
  unfold TimeYMDHMSToEpoch
  rw [d1, d2, b1, b2]
  norm_num

/-- Claim C7: month length table. In any non-leap year, for every month the
calendar instant on that month's last valid day (31,28,31,30,31,30,31,31,
30,31,30,31) converts through `TimeYMDHMSToEpoch` and back through
`TimeEpochToYMDHMS` to the same components. -/
theorem c7_month_lengths :
    ∀ yr : Int, isLeapYear yr = false → ∀ mo : Nat, 1 ≤ mo → mo ≤ 12 →
      TimeEpochToYMDHMS
          (TimeYMDHMSToEpoch yr mo (monthLengthsCommon.getD (mo - 1) 0) 0 0 0)
        = (yr, mo, monthLengthsCommon.getD (mo - 1) 0, 0, 0, 0) := by
  intro yr hleap mo h1 h2
  have hlen : monthLengthsCommon.getD (mo - 1) 0 = daysInMonth yr mo := by
    interval_cases mo <;> simp [monthLengthsCommon, daysInMonth, hleap]
  rw [hlen]
  exact calendar_roundtrip yr mo (daysInMonth yr mo) 0 0 0 h1 h2
    (by have := daysInMonth_ge yr mo; omega) le_rfl (by norm_num) (by norm_num)
    (by norm_num) (by norm_num)

theorem c7_month_lengths_witness :
    TimeEpochToYMDHMS
        (TimeYMDHMSToEpoch 1970 2 (monthLengthsCommon.getD 1 0) 0 0 0)
      = (1970, 2, monthLengthsCommon.getD 1 0, 0, 0, 0) :=
  c7_month_lengths 1970 (by decide) 2 (by norm_num) (by norm_num)

/-- Claim C8: `TimeYrsecToYMDHMS` boundaries. For every year, 0 seconds
into the year yields (1, 1, 0, 0, 0), and days-in-year times 86400 minus
one second yields (12, 31, 23, 59, 59). -/
theorem c8_yrsec_boundaries :
    ∀ yr : Int,
      TimeYrsecToYMDHMS 0 yr = (1, 1, 0, 0, 0)
      ∧ TimeYrsecToYMDHMS ((daysInYear yr : Int) * 86400 - 1) yr
          = (12, 31, 23, 59, 59) := by
  intro yr
  constructor
  · rw [yrsec_components]
    have h00 : (((0 : Int) / 86400)).toNat = 0 := by decide
    have h01 : (((0 : Int) % 86400)).toNat = 0 := by decide
    have hm0 : resolveMonth yr 0 = (1, 1) := by
      have h := resolveMonth_eq yr 1 1 (by norm_num) (by norm_num) (by norm_num)
        (by have := daysInMonth_ge yr 1; omega)
      simpa [daysBeforeMonth_one] using h
    rw [h00, h01, hm0]
  · have hNge := daysInYear_ge yr
    have hdv : ((((daysInYear yr : Int) * 86400 - 1)) / 86400).toNat
        = daysInYear yr - 1 := by omega
    have hmd : ((((daysInYear yr : Int) * 86400 - 1)) % 86400).toNat = 86399 := by
      omega
    rw [yrsec_components, hdv, hmd]
    have hy12 := daysInYear_eq_months yr
    have h12 : daysInMonth yr 12 = 31 := rfl
    have hres : resolveMonth yr (daysInYear yr - 1) = (12, 31) := by
      have h := resolveMonth_eq yr 12 31 (by norm_num) le_rfl (by norm_num)
        (by rw [h12])
      have harg : daysBeforeMonth yr 12 + (31 - 1) = daysInYear yr - 1 := by
        omega
      rw [harg] at h
      exact h
    rw [hres]

/-- Claim C9: determinism and purity. Each operation, modelled as a
transformation of the caller's variables, produces outputs that depend only
on its declared inputs (so two runs on identical inputs agree), and leaves
every input location unchanged. -/
theorem c9_pure :
    (∀ s1 s2 : EpochCallFrame, s1.tme = s2.tme →
        (runTimeEpochToYMDHMS s1).yr = (runTimeEpochToYMDHMS s2).yr
        ∧ (runTimeEpochToYMDHMS s1).mo = (runTimeEpochToYMDHMS s2).mo
        ∧ (runTimeEpochToYMDHMS s1).dy = (runTimeEpochToYMDHMS s2).dy
        ∧ (runTimeEpochToYMDHMS s1).hr = (runTimeEpochToYMDHMS s2).hr
        ∧ (runTimeEpochToYMDHMS s1).mn = (runTimeEpochToYMDHMS s2).mn
        ∧ (runTimeEpochToYMDHMS s1).sc = (runTimeEpochToYMDHMS s2).sc)
    ∧ (∀ s : EpochCallFrame, (runTimeEpochToYMDHMS s).tme = s.tme)
    ∧ (∀ s1 s2 : YmdCallFrame, s1.yr = s2.yr → s1.mo = s2.mo → s1.dy = s2.dy →
        s1.hr = s2.hr → s1.mn = s2.mn → s1.sec = s2.sec →
        (runTimeYMDHMSToEpoch s1).epoch = (runTimeYMDHMSToEpoch s2).epoch)
    ∧ (∀ s : YmdCallFrame, (runTimeYMDHMSToEpoch s).yr = s.yr
        ∧ (runTimeYMDHMSToEpoch s).mo = s.mo
        ∧ (runTimeYMDHMSToEpoch s).dy = s.dy
        ∧ (runTimeYMDHMSToEpoch s).hr = s.hr
        ∧ (runTimeYMDHMSToEpoch s).mn = s.mn
        ∧ (runTimeYMDHMSToEpoch s).sec = s.sec)
    ∧ (∀ s1 s2 : YrsecCallFrame, s1.time = s2.time → s1.yr = s2.yr →
        (runTimeYrsecToYMDHMS s1).mo = (runTimeYrsecToYMDHMS s2).mo
        ∧ (runTimeYrsecToYMDHMS s1).dy = (runTimeYrsecToYMDHMS s2).dy
        ∧ (runTimeYrsecToYMDHMS s1).hr = (runTimeYrsecToYMDHMS s2).hr
        ∧ (runTimeYrsecToYMDHMS s1).mn = (runTimeYrsecToYMDHMS s2).mn
        ∧ (runTimeYrsecToYMDHMS s1).sc = (runTimeYrsecToYMDHMS s2).sc)
    ∧ (∀ s : YrsecCallFrame, (runTimeYrsecToYMDHMS s).time = s.time
        ∧ (runTimeYrsecToYMDHMS s).yr = s.yr) := by
  refine ⟨?_, fun s => rfl, ?_, fun s => ⟨rfl, rfl, rfl, rfl, rfl, rfl⟩, ?_,
    fun s => ⟨rfl, rfl⟩⟩
  · intro s1 s2 h
    simp [runTimeEpochToYMDHMS, h]
  · intro s1 s2 h1 h2 h3 h4 h5 h6
    simp [runTimeYMDHMSToEpoch, h1, h2, h3, h4, h5, h6]
  · intro s1 s2 h1 h2
    simp [runTimeYrsecToYMDHMS, h1, h2]

theorem c9_pure_witness :
    (runTimeEpochToYMDHMS ⟨0, 0, 0, 0, 0, 0, 0⟩).yr
      = (runTimeEpochToYMDHMS ⟨0, 1, 2, 3, 4, 5, 6⟩).yr :=
  (c9_pure.1 ⟨0, 0, 0, 0, 0, 0, 0⟩ ⟨0, 1, 2, 3, 4, 5, 6⟩ rfl).1

/-- Claim C10: `TimeYrsecToYMDHMS` takes its year purely by value: a call
leaves the caller's `time` and `yr` unchanged and writes only the five
output locations, and its seconds output is the integer second of the
decomposition (a `Nat` in this model, mirroring `int *sc` in the header,
unlike the fractional second of `TimeEpochToYMDHMS`). -/
theorem c10_yrsec_frame :
    ∀ s : YrsecCallFrame,
      (runTimeYrsecToYMDHMS s).yr = s.yr
      ∧ (runTimeYrsecToYMDHMS s).time = s.time
      ∧ (runTimeYrsecToYMDHMS s).sc
          = ((TimeYrsecToYMDHMS s.time s.yr).2.2.2.2 : Nat) :=
  fun _ => ⟨rfl, rfl, rfl⟩
